import Mathlib

/-!
Verification of the token-bucket rate limiter in `run_server.py`.

The embedding follows the source: `TokenBucket` holds an integer
`capacity` and rational `tokens`, `refill_rate` and `last_checked`
(Python floats and timestamps are modelled as rationals).  The time
argument `now` of `allow_request` stands for the value read from
`time.time()` inside the method.
-/

namespace RateLimitChallenge

/-- State of `TokenBucket` (fields as in `TokenBucket.__init__`). -/
structure TokenBucket where
  capacity : ℤ
  tokens : ℚ
  refill_rate : ℚ
  last_checked : ℚ
deriving Repr, DecidableEq

/-- `TokenBucket.__init__(capacity, refill_rate)`: starts full
(`tokens = capacity`) with `last_checked = now`. -/
def TokenBucket.new (capacity : ℤ) (refill_rate : ℚ) (now : ℚ) : TokenBucket :=
  { capacity := capacity
    tokens := (capacity : ℚ)
    refill_rate := refill_rate
    last_checked := now }

/-- `TokenBucket.allow_request`, with the `time.time()` reading passed in as
`now`.  Mirrors the source line by line: `elapsed = now - last_checked`;
`last_checked = now`; `tokens = min(capacity, tokens + elapsed * refill_rate)`;
then admit (and take one token) iff `tokens >= 1`. -/
def TokenBucket.allow_request (b : TokenBucket) (now : ℚ) : Bool × TokenBucket :=
  let elapsed := now - b.last_checked
  let refilled := min (b.capacity : ℚ) (b.tokens + elapsed * b.refill_rate)
  if 1 ≤ refilled then
    (true, { b with last_checked := now, tokens := refilled - 1 })
  else
    (false, { b with last_checked := now, tokens := refilled })

/-- `TokenBucket.update_config(capacity, refill_rate)`: overwrite both
parameters, then `tokens = min(tokens, capacity)`. -/
def TokenBucket.update_config (b : TokenBucket) (capacity : ℤ) (refill_rate : ℚ) :
    TokenBucket :=
  { b with capacity := capacity
           refill_rate := refill_rate
           tokens := min b.tokens (capacity : ℚ) }

/-- The behaviour of `allow_request` as the spec describes it (set
`last_checked` unconditionally, refill to
`min(capacity, tokens + (now - last_checked) * refill_rate)`, admit and
subtract one token iff the refilled amount is at least 1). -/
def TokenBucket.allow_request_s (b : TokenBucket) (now : ℚ) : Bool × TokenBucket :=
  let refilled := min (b.capacity : ℚ) (b.tokens + (now - b.last_checked) * b.refill_rate)
  if 1 ≤ refilled then
    (true, { capacity := b.capacity, tokens := refilled - 1
             refill_rate := b.refill_rate, last_checked := now })
  else
    (false, { capacity := b.capacity, tokens := refilled
              refill_rate := b.refill_rate, last_checked := now })

/-- The behaviour of `update_config` as the spec describes it: replace
`capacity` and `refill_rate`, clamp `tokens` down to the new capacity, leave
`last_checked` unchanged. -/
def TokenBucket.update_config_s (b : TokenBucket) (capacity : ℤ) (refill_rate : ℚ) :
    TokenBucket :=
  { capacity := capacity
    tokens := min b.tokens (capacity : ℚ)
    refill_rate := refill_rate
    last_checked := b.last_checked }

/-- An operation on the bucket: an admission check at a given clock reading,
or a configuration update. -/
inductive Op where
  | allow (now : ℚ)
  | update (capacity : ℤ) (refill_rate : ℚ)
deriving Repr, DecidableEq

/-- Apply one operation to the bucket state. -/
def TokenBucket.step (b : TokenBucket) : Op → TokenBucket
  | .allow now => (b.allow_request now).2
  | .update c r => b.update_config c r

/-- Run a sequence of operations. -/
def runOps (b : TokenBucket) : List Op → TokenBucket
  | [] => b
  | op :: ops => runOps (b.step op) ops

/-- Well-formed next operation: an admission check must not move the clock
backwards, and a configuration update must supply a non-negative capacity and
refill rate. -/
def Op.wfB (b : TokenBucket) : Op → Bool
  | .allow now => decide (b.last_checked ≤ now)
  | .update c r => decide (0 ≤ c) && decide ((0 : ℚ) ≤ r)

/-- Well-formed operation sequence from a given initial state. -/
def wfOpsB : TokenBucket → List Op → Bool
  | _, [] => true
  | b, op :: ops => Op.wfB b op && wfOpsB (b.step op) ops

/-- The state invariant claimed by the spec, together with the non-negative
refill rate it needs in order to be preserved. -/
abbrev Inv (b : TokenBucket) : Prop :=
  0 ≤ b.tokens ∧ b.tokens ≤ (b.capacity : ℚ) ∧ 0 ≤ b.refill_rate

/-- `n` consecutive `allow_request` calls, all with the same clock reading
`now`; returns the list of decisions and the final state. -/
def allowRepeat : TokenBucket → ℚ → ℕ → List Bool × TokenBucket
  | b, _, 0 => ([], b)
  | b, now, n + 1 =>
      let p := b.allow_request now
      let q := allowRepeat p.2 now n
      (p.1 :: q.1, q.2)

/-- `allow_request` calls at the given list of clock readings. -/
def allowAt : TokenBucket → List ℚ → List Bool × TokenBucket
  | b, [] => ([], b)
  | b, t :: ts =>
      let p := b.allow_request t
      let q := allowAt p.2 ts
      (p.1 :: q.1, q.2)

/-- The list of clock readings is non-decreasing, starting from `t`. -/
def nondecB : ℚ → List ℚ → Bool
  | _, [] => true
  | t, s :: ss => decide (t ≤ s) && nondecB s ss

/-- The exception raised by the route wrapper on denial
(`HTTPException(status_code=..., detail=...)`). -/
structure HTTPException where
  status_code : ℕ
  detail : String
deriving Repr, DecidableEq

/-- The denial message of `RateLimiter.rate_limited`. -/
def rateLimitDetail : String := "Rate limit exceeded. Try again later."

/-- `RateLimiter`: holds the bucket the wrapper consults. -/
structure RateLimiter where
  bucket : TokenBucket
deriving Repr, DecidableEq

/-- The wrapper produced by `RateLimiter.rate_limited` applied to a handler
whose result is `func`: if `allow_request` denies, raise HTTP 429 with
`rateLimitDetail`; otherwise return the handler's result unchanged. -/
def RateLimiter.rate_limited {α : Type} (rl : RateLimiter) (now : ℚ) (func : α) :
    Except HTTPException α × RateLimiter :=
  let p := rl.bucket.allow_request now
  if !p.1 then
    (Except.error { status_code := 429, detail := rateLimitDetail }, { bucket := p.2 })
  else
    (Except.ok func, { bucket := p.2 })

/-! ### Helper lemmas -/

/-- A well-formed operation preserves the invariant. -/
theorem Inv.step_wf {b : TokenBucket} {op : Op} (hb : Inv b) (hop : Op.wfB b op = true) :
    Inv (b.step op) := by
  obtain ⟨h0, hcap, hrate⟩ := hb
  cases op with
  | allow now =>
      have hnow : b.last_checked ≤ now := by simpa [Op.wfB] using hop
      have hc0 : (0 : ℚ) ≤ (b.capacity : ℚ) := le_trans h0 hcap
      have hx : 0 ≤ b.tokens + (now - b.last_checked) * b.refill_rate :=
        add_nonneg h0 (mul_nonneg (sub_nonneg.2 hnow) hrate)
      have hmin0 : 0 ≤ min (b.capacity : ℚ)
          (b.tokens + (now - b.last_checked) * b.refill_rate) := le_min hc0 hx
      have hminc : min (b.capacity : ℚ)
          (b.tokens + (now - b.last_checked) * b.refill_rate) ≤ (b.capacity : ℚ) :=
        min_le_left _ _
      simp only [TokenBucket.step, TokenBucket.allow_request]
      split
      · next h1 =>
          refine ⟨?_, ?_, ?_⟩ <;> dsimp only
          · linarith
          · linarith
          · exact hrate
      · next h1 =>
          refine ⟨?_, ?_, ?_⟩ <;> dsimp only
          · exact hmin0
          · exact hminc
          · exact hrate
  | update c r =>
      simp only [Op.wfB, Bool.and_eq_true, decide_eq_true_eq] at hop
      obtain ⟨hc, hr⟩ := hop
      have hcq : (0 : ℚ) ≤ (c : ℚ) := by exact_mod_cast hc
      simp only [TokenBucket.step, TokenBucket.update_config]
      exact ⟨le_min h0 hcq, min_le_right _ _, hr⟩

/-- A well-formed operation sequence preserves the invariant. -/
theorem Inv_runOps {b : TokenBucket} (ops : List Op) (hb : Inv b)
    (hwf : wfOpsB b ops = true) : Inv (runOps b ops) := by
  induction ops generalizing b with
  | nil => simpa [runOps] using hb
  | cons op ops ih =>
      simp only [wfOpsB, Bool.and_eq_true] at hwf
      simp only [runOps]
      exact ih (Inv.step_wf hb hwf.1) hwf.2

/-- Well-formedness is closed under taking an initial segment. -/
theorem wfOpsB_take {b : TokenBucket} {ops : List Op} (h : wfOpsB b ops = true) :
    ∀ i : ℕ, wfOpsB b (ops.take i) = true := by
  induction ops generalizing b with
  | nil => intro i; simp [wfOpsB]
  | cons op ops ih =>
      intro i
      cases i with
      | zero => simp [wfOpsB]
      | succ j =>
          simp only [wfOpsB, Bool.and_eq_true] at h
          simp only [List.take_succ_cons, wfOpsB, Bool.and_eq_true]
          exact ⟨h.1, ih h.2 j⟩

/-- Unfolding one call of `allowRepeat`. -/
theorem allowRepeat_succ (b : TokenBucket) (now : ℚ) (n : ℕ) :
    allowRepeat b now (n + 1) =
      ((b.allow_request now).1 :: (allowRepeat (b.allow_request now).2 now n).1,
       (allowRepeat (b.allow_request now).2 now n).2) := rfl

/-- An `allow_request` call with zero elapsed time serves straight from the
current (in-capacity) token count. -/
theorem allow_request_here {b : TokenBucket} {now : ℚ} (hlc : b.last_checked = now)
    (hcap : b.tokens ≤ (b.capacity : ℚ)) :
    b.allow_request now =
      if 1 ≤ b.tokens then
        (true, { b with last_checked := now, tokens := b.tokens - 1 })
      else
        (false, { b with last_checked := now, tokens := b.tokens }) := by
  simp only [TokenBucket.allow_request, hlc, sub_self, zero_mul, add_zero]
  rw [min_eq_right hcap]

/-- Draining a bucket with zero-elapsed calls: with `k = ⌊tokens⌋` tokens
spendable, the first `k` calls are admitted and the next one is denied. -/
theorem allowRepeat_exhaust :
    ∀ (k : ℕ) (b : TokenBucket) (now : ℚ), b.last_checked = now → 0 ≤ b.tokens →
      b.tokens ≤ (b.capacity : ℚ) → (⌊b.tokens⌋).toNat = k →
      (allowRepeat b now (k + 1)).1 = List.replicate k true ++ [false] := by
  intro k
  induction k with
  | zero =>
      intro b now hlc h0 hcap hk
      have hge : 0 ≤ ⌊b.tokens⌋ := Int.floor_nonneg.mpr h0
      have hfl : ⌊b.tokens⌋ = 0 := by omega
      have hlt : b.tokens < 1 := by
        have h := Int.lt_floor_add_one b.tokens
        rw [hfl] at h
        exact_mod_cast h
      rw [allowRepeat_succ, allow_request_here hlc hcap, if_neg (by linarith)]
      simp [allowRepeat]
  | succ k ih =>
      intro b now hlc h0 hcap hk
      have hge : 0 ≤ ⌊b.tokens⌋ := Int.floor_nonneg.mpr h0
      have hfl : ⌊b.tokens⌋ = (k : ℤ) + 1 := by omega
      have h1 : (1 : ℚ) ≤ b.tokens := by
        have hfloor := Int.floor_le b.tokens
        rw [hfl] at hfloor
        have hk1 : ((k : ℤ) + 1 : ℤ) ≥ 1 := by omega
        calc (1 : ℚ) ≤ (((k : ℤ) + 1 : ℤ) : ℚ) := by exact_mod_cast hk1
          _ ≤ b.tokens := hfloor
      have hfloor1 : ⌊b.tokens - 1⌋ = ⌊b.tokens⌋ - 1 := by
        have h := Int.floor_sub_int b.tokens 1
        simpa using h
      rw [allowRepeat_succ, allow_request_here hlc hcap, if_pos h1]
      dsimp only
      rw [ih { b with last_checked := now, tokens := b.tokens - 1 } now rfl
        (by dsimp only; linarith) (by dsimp only; linarith)
        (by dsimp only; omega)]
      simp [List.replicate_succ]

/-- An `allow_request` call behaves like the same call on the state whose
tokens were already refilled and whose clock already advanced. -/
theorem allow_request_refill (b : TokenBucket) (now : ℚ) :
    b.allow_request now =
      (TokenBucket.mk b.capacity
        (min (b.capacity : ℚ) (b.tokens + (now - b.last_checked) * b.refill_rate))
        b.refill_rate now).allow_request now := by
  simp only [TokenBucket.allow_request, sub_self, zero_mul, add_zero]
  rw [← min_assoc, min_self]

/-- With capacity 0 and a non-positive token count, every call is denied and
the token count stays non-positive. -/
theorem allowAt_cap_zero (ts : List ℚ) :
    ∀ b : TokenBucket, b.capacity = 0 → b.tokens ≤ 0 →
      (allowAt b ts).1 = List.replicate ts.length false := by
  induction ts with
  | nil => intro b _ _; simp [allowAt]
  | cons t ts ih =>
      intro b hcap htok
      have hc0 : ((b.capacity : ℚ)) = 0 := by rw [hcap]; norm_num
      have hmin : min ((b.capacity : ℚ))
          (b.tokens + (t - b.last_checked) * b.refill_rate) ≤ 0 := by
        rw [hc0]
        exact min_le_left _ _
      simp only [allowAt, TokenBucket.allow_request]
      rw [if_neg (by linarith)]
      dsimp only
      have hrec := ih
        { b with
          last_checked := t
          tokens := min ((b.capacity : ℚ))
            (b.tokens + (t - b.last_checked) * b.refill_rate) }
        hcap hmin
      rw [hrec]
      simp [List.replicate_succ]

/-! ### Claims -/

/-- Claim C1, counterexample: the claim admits update_config calls "with any
arguments"; a bucket constructed with capacity 5 ≥ 0 and refill rate 1/2 ≥ 0,
after the single call `update_config(-1, 1)`, has `tokens = min(5, -1) = -1`,
violating `0 ≤ tokens`. -/
theorem C1_counterexample :
    ¬ (0 ≤ (runOps (TokenBucket.new 5 (1/2) 0) [Op.update (-1) 1]).tokens) := by
  norm_num [runOps, TokenBucket.step, TokenBucket.update_config, TokenBucket.new,
    min_def]

/-- Claim C1 (amended): for every bucket constructed with capacity ≥ 0 and
refill rate ≥ 0, and every finite sequence of `allow_request` and
`update_config` calls in which every `update_config` argument pair satisfies
capacity ≥ 0 and refill rate ≥ 0 and no `allow_request` timestamp precedes the
bucket's current `last_checked`, immediately after each call (that is, after
every initial segment of the sequence) `0 ≤ tokens ≤ capacity`. -/
theorem C1_invariant_holds (c : ℤ) (r t0 : ℚ) (hc : 0 ≤ c) (hr : 0 ≤ r)
    (ops : List Op) (hwf : wfOpsB (TokenBucket.new c r t0) ops = true) (i : ℕ) :
    0 ≤ (runOps (TokenBucket.new c r t0) (ops.take i)).tokens ∧
    (runOps (TokenBucket.new c r t0) (ops.take i)).tokens ≤
      ((runOps (TokenBucket.new c r t0) (ops.take i)).capacity : ℚ) := by
  have hb : Inv (TokenBucket.new c r t0) :=
    ⟨by show (0 : ℚ) ≤ (c : ℚ); exact_mod_cast hc, le_refl _, hr⟩
  have h := Inv_runOps (ops.take i) hb (wfOpsB_take hwf i)
  exact ⟨h.1, h.2.1⟩

/-- Claim C1, witness: the amended invariant at a concrete well-formed
sequence (one admission, then a config update to capacity 1). -/
theorem C1_invariant_holds_witness :
    (0 : ℤ) ≤ 2 ∧ (0 : ℚ) ≤ 1 ∧
    wfOpsB (TokenBucket.new 2 1 0) [Op.allow 0, Op.update 1 1] = true ∧
    (0 ≤ (runOps (TokenBucket.new 2 1 0) ([Op.allow 0, Op.update 1 1].take 2)).tokens ∧
      (runOps (TokenBucket.new 2 1 0) ([Op.allow 0, Op.update 1 1].take 2)).tokens ≤
        ((runOps (TokenBucket.new 2 1 0) ([Op.allow 0, Op.update 1 1].take 2)).capacity : ℚ)) :=
  ⟨by norm_num, by norm_num,
   by norm_num [wfOpsB, Op.wfB, TokenBucket.step, TokenBucket.allow_request,
     TokenBucket.new, min_def],
   C1_invariant_holds 2 1 0 (by norm_num) (by norm_num) [Op.allow 0, Op.update 1 1]
     (by norm_num [wfOpsB, Op.wfB, TokenBucket.step, TokenBucket.allow_request,
       TokenBucket.new, min_def]) 2⟩

/-- Claim C2: `allow_request` at time `now` behaves exactly as the spec
describes — `last_checked` is set to `now` unconditionally, tokens become
`refilled = min(capacity, tokens + (now - last_checked) * refill_rate)`, and
the call returns allowed with one token subtracted iff `refilled ≥ 1`,
otherwise denied with `tokens = refilled`. -/
theorem C2_allow_request_matches_spec (b : TokenBucket) (now : ℚ) :
    b.allow_request now = b.allow_request_s now := rfl

/-- Claim C3: a freshly constructed bucket with integer capacity `C ≥ 0`
admits exactly the first `C` zero-elapsed `allow_request` calls and denies
the `(C+1)`-th. -/
theorem C3_burst_admission (C : ℕ) (r t0 : ℚ) (hr : 0 ≤ r) :
    (allowRepeat (TokenBucket.new (C : ℤ) r t0) t0 (C + 1)).1 =
      List.replicate C true ++ [false] := by
  apply allowRepeat_exhaust
  · rfl
  · show (0 : ℚ) ≤ ((C : ℤ) : ℚ)
    exact_mod_cast Int.ofNat_nonneg C
  · exact le_refl _
  · show (⌊((C : ℤ) : ℚ)⌋).toNat = C
    simp

/-- Claim C3, witness: capacity 2 and refill rate 1/2 give decisions
`[true, true, false]`. -/
theorem C3_burst_admission_witness :
    (0 : ℚ) ≤ 1/2 ∧
    (allowRepeat (TokenBucket.new ((2 : ℕ) : ℤ) (1/2) 0) 0 (2 + 1)).1 =
      List.replicate 2 true ++ [false] :=
  ⟨by norm_num, C3_burst_admission 2 (1/2) 0 (by norm_num)⟩

/-- Claim C4: `update_config` replaces `capacity` and `refill_rate`, clamps
`tokens` to `min(tokens, capacity)` and leaves `last_checked` unchanged; in
particular `tokens = 0.2` stays `0.2` after `update_config(10, 2.0)` (no
top-up on a capacity increase) and `tokens = 5` becomes `3` after
`update_config(3, ...)`. -/
theorem C4_update_config_matches_spec (b : TokenBucket) (c : ℤ) (r : ℚ) :
    b.update_config c r = b.update_config_s c r ∧
    ((TokenBucket.mk 5 (1/5) 1 0).update_config 10 2).tokens = 1/5 ∧
    ((TokenBucket.mk 7 5 1 0).update_config 3 1).tokens = 3 := by
  refine ⟨rfl, ?_, ?_⟩ <;> norm_num [TokenBucket.update_config, min_def]

/-- Claim C6: starting from `tokens = 0` with capacity ≥ 0 and refill rate
≥ 0, after one wait of `t ≥ 0` seconds exactly
`⌊min(capacity, t * refill_rate)⌋` zero-elapsed `allow_request` calls succeed
and the next one is denied. -/
theorem C6_refill_admissions (cap : ℤ) (r t t0 : ℚ) (hcap : 0 ≤ cap) (hr : 0 ≤ r)
    (ht : 0 ≤ t) :
    (allowRepeat (TokenBucket.mk cap 0 r t0) (t0 + t)
        ((⌊min (cap : ℚ) (t * r)⌋).toNat + 1)).1 =
      List.replicate (⌊min (cap : ℚ) (t * r)⌋).toNat true ++ [false] := by
  set R := min (cap : ℚ) (t * r) with hR
  have hR0 : 0 ≤ R := le_min (by exact_mod_cast hcap) (mul_nonneg ht hr)
  have hRcap : R ≤ (cap : ℚ) := min_le_left _ _
  have hpair := allow_request_refill (TokenBucket.mk cap 0 r t0) (t0 + t)
  rw [show (TokenBucket.mk cap 0 r t0).tokens +
        ((t0 + t) - (TokenBucket.mk cap 0 r t0).last_checked) *
          (TokenBucket.mk cap 0 r t0).refill_rate = t * r by dsimp only; ring] at hpair
  rw [← hR] at hpair
  rw [allowRepeat_succ, hpair, ← allowRepeat_succ]
  exact allowRepeat_exhaust _ _ _ rfl hR0 hRcap rfl

/-- Claim C6, witness: capacity 5, refill rate 1/2, wait 4 seconds — two
admissions become available, then a denial. -/
theorem C6_refill_admissions_witness :
    (0 : ℤ) ≤ 5 ∧ (0 : ℚ) ≤ 1/2 ∧ (0 : ℚ) ≤ 4 ∧
    (allowRepeat (TokenBucket.mk 5 0 (1/2) 0) (0 + 4)
        ((⌊min ((5 : ℤ) : ℚ) (4 * (1/2))⌋).toNat + 1)).1 =
      List.replicate (⌊min ((5 : ℤ) : ℚ) (4 * (1/2))⌋).toNat true ++ [false] :=
  ⟨by norm_num, by norm_num, by norm_num,
   C6_refill_admissions 5 (1/2) 4 0 (by norm_num) (by norm_num) (by norm_num)⟩

/-- Claim C7: the route wrapper raises HTTP 429 with detail
"Rate limit exceeded. Try again later." iff `allow_request` returns false,
and returns the handler's result unchanged iff `allow_request` returns true
(in this embedding `allow_request` is a total function into `Bool`, so it
never raises). -/
theorem C7_deny_becomes_429 {α : Type} (rl : RateLimiter) (now : ℚ) (func : α) :
    ((rl.rate_limited now func).1 =
        Except.error { status_code := 429, detail := rateLimitDetail } ↔
      (rl.bucket.allow_request now).1 = false) ∧
    ((rl.rate_limited now func).1 = Except.ok func ↔
      (rl.bucket.allow_request now).1 = true) := by
  cases h : (rl.bucket.allow_request now).1 <;>
    simp [RateLimiter.rate_limited, h]

/-- Claim C8: a bucket constructed with capacity 0 denies every call of any
sequence of `allow_request` calls at non-decreasing times, for any refill
rate ≥ 0. -/
theorem C8_capacity_zero_never_admits (r t0 : ℚ) (ts : List ℚ) (hr : 0 ≤ r)
    (hts : nondecB t0 ts = true) :
    (allowAt (TokenBucket.new 0 r t0) ts).1 = List.replicate ts.length false :=
  allowAt_cap_zero ts _ rfl (by norm_num [TokenBucket.new])

/-- Claim C8, witness: capacity 0, refill rate 1, calls at times 0, 1, 2 —
all denied. -/
theorem C8_capacity_zero_never_admits_witness :
    (0 : ℚ) ≤ 1 ∧ nondecB 0 [0, 1, 2] = true ∧
    (allowAt (TokenBucket.new 0 1 0) [0, 1, 2]).1 =
      List.replicate ([0, 1, 2] : List ℚ).length false :=
  ⟨by norm_num, by norm_num [nondecB],
   C8_capacity_zero_never_admits 1 0 [0, 1, 2] (by norm_num) (by norm_num [nondecB])⟩

/-- Claim C9: `update_config` validates nothing — on any state with
`tokens ≥ 0`, a call with capacity `c < 0` (and any refill rate `r`) succeeds
and leaves `capacity = c`, `refill_rate = r`, `tokens = c < 0`. -/
theorem C9_update_config_no_validation (b : TokenBucket) (c : ℤ) (r : ℚ)
    (htok : 0 ≤ b.tokens) (hc : c < 0) :
    b.update_config c r =
      { capacity := c, tokens := (c : ℚ), refill_rate := r,
        last_checked := b.last_checked } ∧
    (b.update_config c r).tokens < 0 := by
  have hcq : (c : ℚ) < 0 := by exact_mod_cast hc
  have hmin : min b.tokens (c : ℚ) = (c : ℚ) :=
    min_eq_right (le_trans (le_of_lt hcq) htok)
  constructor
  · simp [TokenBucket.update_config, hmin]
  · simp only [TokenBucket.update_config]
    rw [hmin]
    exact hcq

/-- Claim C9, witness: `update_config(-2, 3)` on a full bucket of capacity 5
leaves `tokens = -2`. -/
theorem C9_update_config_no_validation_witness :
    0 ≤ (TokenBucket.mk 5 5 1 0).tokens ∧ (-2 : ℤ) < 0 ∧
    ((TokenBucket.mk 5 5 1 0).update_config (-2) 3 =
      { capacity := -2, tokens := ((-2 : ℤ) : ℚ), refill_rate := 3,
        last_checked := (TokenBucket.mk 5 5 1 0).last_checked } ∧
     ((TokenBucket.mk 5 5 1 0).update_config (-2) 3).tokens < 0) :=
  ⟨by norm_num, by norm_num,
   C9_update_config_no_validation (TokenBucket.mk 5 5 1 0) (-2) 3
     (by norm_num) (by norm_num)⟩

/-- Claim C10: non-negativity of `tokens` depends on non-decreasing call
times — there is a state with `0 ≤ tokens ≤ capacity` and a positive refill
rate on which an `allow_request` call at a time earlier than `last_checked`
leaves `tokens < 0`. -/
theorem C10_backwards_clock_negative_tokens :
    ∃ (b : TokenBucket) (now : ℚ),
      0 ≤ b.tokens ∧ b.tokens ≤ (b.capacity : ℚ) ∧ 0 < b.refill_rate ∧
      now < b.last_checked ∧ ((b.allow_request now).2).tokens < 0 := by
  refine ⟨TokenBucket.mk 5 0 1 10, 0, by norm_num, by norm_num, by norm_num,
    by norm_num, ?_⟩
  norm_num [TokenBucket.allow_request, min_def]

end RateLimitChallenge
